import Mathlib

/-!
Verification of the TSOPPI SADET path-classification and export-planning
engine.

Shallow embedding of `SADET.py` and `resources/software/TSOPPI_shared_functions.py`.

Filesystem paths are modelled as lists of path components (`FPath`); the
mutable Python dict `available_file_paths_dict` mapping path strings to the
one-letter status codes `"S"`/`"E"`/`"I"` is modelled as an association list
(`StatusMap`) that preserves the dict's insertion order.  Regex patterns are
modelled extensionally as decidable predicates on paths (`FPath → Bool`):
`re.fullmatch` either matches a path string or it does not, and the claims
under study quantify over arbitrary pattern sets.  Python `exit(n)` calls and
uncaught exceptions are modelled with the `PyExit` error type.
-/

namespace SADET

/-- A filesystem path, as its list of path components (the pieces between
`/` separators of the Python path string). -/
abbrev FPath := List String

/-- The `available_file_paths_dict` of `SADET.py`: an insertion-ordered map
from paths to one-letter status codes (`"S"` = Skip, `"E"` = Export,
`"I"` = Ignore). -/
abbrev StatusMap := List (FPath × String)

/-- The keys of a status map, in insertion order (Python dict iteration
order). -/
def keysA (d : StatusMap) : List FPath := d.map Prod.fst

/-- Dictionary lookup: the value stored for key `p`, if present. -/
def lookupA : StatusMap → FPath → Option String
  | [], _ => none
  | (k, v) :: rest, p => if k = p then some v else lookupA rest p

/-- Python `path_dict[k] = v` for a key `k` already present in the dict: every
binding of `k` is overwritten with `v` (all writes in
`reclassify_matching_paths` target existing keys). -/
def setVal (d : StatusMap) (k : FPath) (v : String) : StatusMap :=
  d.map (fun e => if e.1 = k then (k, v) else e)

/-- The `while` loop of `reclassify_matching_paths` (SADET.py lines 39-44):
starting from the parent of a matched path, repeatedly mark the current
ancestor `"I"` if it is a dict key, stopping at `base_path` or at the first
ancestor that is not a dict key.  The fuel argument bounds the walk (the
Python loop terminates structurally whenever `base` is an ancestor of the
start path, which the caller guarantees). -/
def walkFuel : Nat → FPath → StatusMap → FPath → StatusMap
  | 0, _, d, _ => d
  | n + 1, base, d, parent =>
    if parent = base then d
    else if parent ∈ keysA d then walkFuel n base (setVal d parent "I") parent.dropLast
    else d

/-- One iteration of the `for available_path in matching_paths` loop
(SADET.py lines 34-44): set the matched path to `"E"`, then walk its
ancestor chain. -/
def markExportAndAncestors (base : FPath) (d : StatusMap) (m : FPath) : StatusMap :=
  walkFuel (m.length + 1) base (setVal d m "E") m.dropLast

/-- The function `reclassify_matching_paths` (SADET.py lines 29-46): collect the paths in
the dict matching the pattern, assign each class `"E"` and mark its
ancestors `"I"`; return the updated dict and the number of matches. -/
def reclassify_matching_paths (pat : FPath → Bool) (d : StatusMap) (base : FPath) :
    StatusMap × Nat :=
  let matching := (keysA d).filter pat
  (matching.foldl (markExportAndAncestors base) d, matching.length)

/-- The classification phase of `main`: apply `reclassify_matching_paths`
once per pattern, in the given application order, threading the path dict
through (SADET.py lines 504-543 / 640-657). -/
def classifyAll (pats : List (FPath → Bool)) (base : FPath) (d : StatusMap) : StatusMap :=
  pats.foldl (fun acc pat => (reclassify_matching_paths pat acc base).1) d

/-! ## Basic lemmas about the status-map operations -/

theorem keysA_setVal (d : StatusMap) (k : FPath) (v : String) :
    keysA (setVal d k v) = keysA d := by
  induction d with
  | nil => rfl
  | cons e rest ih =>
    simp only [setVal, keysA, List.map_cons] at *
    by_cases h : e.1 = k
    · simp [h, ih]
    · simp [h, ih]

theorem lookupA_setVal_ne (d : StatusMap) (k q : FPath) (v : String) (h : q ≠ k) :
    lookupA (setVal d k v) q = lookupA d q := by
  induction d with
  | nil => rfl
  | cons e rest ih =>
    show lookupA ((if e.1 = k then (k, v) else e) :: setVal rest k v) q = _
    by_cases he : e.1 = k
    · rw [if_pos he]
      have hkq : ¬ (k = q) := fun hk => h hk.symm
      have heq : ¬ (e.1 = q) := by rw [he]; exact hkq
      simp only [lookupA, if_neg hkq, if_neg heq, ih]
    · rw [if_neg he]
      simp only [lookupA]
      by_cases hq : e.1 = q
      · simp [hq]
      · simp [hq, ih]

theorem lookupA_setVal_self (d : StatusMap) (k : FPath) (v : String) :
    lookupA (setVal d k v) k = (lookupA d k).map (fun _ => v) := by
  induction d with
  | nil => rfl
  | cons e rest ih =>
    show lookupA ((if e.1 = k then (k, v) else e) :: setVal rest k v) k = _
    by_cases he : e.1 = k
    · rw [if_pos he]
      simp [lookupA, he]
    · rw [if_neg he]
      simp only [lookupA, if_neg he, ih]

theorem lookupA_isSome_of_mem_keys (d : StatusMap) (k : FPath) (h : k ∈ keysA d) :
    ∃ v, lookupA d k = some v := by
  induction d with
  | nil => simp [keysA] at h
  | cons e rest ih =>
    by_cases he : e.1 = k
    · exact ⟨e.2, by simp [lookupA, he]⟩
    · simp only [keysA, List.map_cons, List.mem_cons] at h
      rcases h with h | h
      · exact absurd h.symm he
      · obtain ⟨v, hv⟩ := ih h
        exact ⟨v, by simp [lookupA, he, hv]⟩

theorem mem_keys_of_lookupA_some (d : StatusMap) (k : FPath) (v : String)
    (h : lookupA d k = some v) : k ∈ keysA d := by
  induction d with
  | nil => simp [lookupA] at h
  | cons e rest ih =>
    simp only [lookupA] at h
    by_cases he : e.1 = k
    · simp [keysA, he]
    · simp only [if_neg he] at h
      simp only [keysA, List.map_cons, List.mem_cons]
      exact Or.inr (ih h)

theorem keysA_walkFuel (f : Nat) (base : FPath) (d : StatusMap) (p : FPath) :
    keysA (walkFuel f base d p) = keysA d := by
  induction f generalizing d p with
  | zero => rfl
  | succ n ih =>
    simp only [walkFuel]
    by_cases h1 : p = base
    · simp [h1]
    · simp only [if_neg h1]
      by_cases h2 : p ∈ keysA d
      · simp only [if_pos h2, ih, keysA_setVal]
      · simp [h2]

theorem keysA_markExportAndAncestors (base : FPath) (d : StatusMap) (m : FPath) :
    keysA (markExportAndAncestors base d m) = keysA d := by
  simp [markExportAndAncestors, keysA_walkFuel, keysA_setVal]

theorem keysA_markFold (base : FPath) (ms : List FPath) (d : StatusMap) :
    keysA (ms.foldl (markExportAndAncestors base) d) = keysA d := by
  induction ms generalizing d with
  | nil => rfl
  | cons m rest ih => simp [List.foldl_cons, ih, keysA_markExportAndAncestors]

theorem keysA_reclassify (pat : FPath → Bool) (d : StatusMap) (base : FPath) :
    keysA (reclassify_matching_paths pat d base).1 = keysA d := by
  simp [reclassify_matching_paths, keysA_markFold]

theorem keysA_classifyAll (pats : List (FPath → Bool)) (base : FPath) (d : StatusMap) :
    keysA (classifyAll pats base d) = keysA d := by
  induction pats generalizing d with
  | nil => rfl
  | cons pat rest ih =>
    show keysA (classifyAll rest base (reclassify_matching_paths pat d base).1) = keysA d
    rw [ih, keysA_reclassify]

/-! ## What the ancestor walk can and cannot touch -/

theorem lookupA_walkFuel_stable (f : Nat) (base : FPath) (d : StatusMap) (p q : FPath)
    (h : ¬ q <+: p) : lookupA (walkFuel f base d p) q = lookupA d q := by
  induction f generalizing d p with
  | zero => rfl
  | succ n ih =>
    simp only [walkFuel]
    by_cases h1 : p = base
    · simp [h1]
    · simp only [if_neg h1]
      by_cases h2 : p ∈ keysA d
      · simp only [if_pos h2]
        have hq : ¬ q <+: p.dropLast := fun hpre => h (hpre.trans (List.dropLast_prefix p))
        rw [ih (setVal d p "I") p.dropLast hq]
        exact lookupA_setVal_ne d p q "I" (fun hqp => h (hqp ▸ List.prefix_refl q))
      · simp [h2]

theorem lookupA_walkFuel_writes (f : Nat) (base : FPath) (d : StatusMap) (p q : FPath)
    (v : String) (h : lookupA (walkFuel f base d p) q = some v) :
    v = "I" ∨ lookupA d q = some v := by
  induction f generalizing d p with
  | zero => exact Or.inr h
  | succ n ih =>
    simp only [walkFuel] at h
    by_cases h1 : p = base
    · rw [if_pos h1] at h; exact Or.inr h
    · rw [if_neg h1] at h
      by_cases h2 : p ∈ keysA d
      · rw [if_pos h2] at h
        rcases ih (setVal d p "I") p.dropLast h with hI | hset
        · exact Or.inl hI
        · by_cases hq : q = p
          · subst hq
            rw [lookupA_setVal_self] at hset
            rcases hv : lookupA d q with _ | w
            · rw [hv] at hset; simp at hset
            · rw [hv] at hset; simp at hset; exact Or.inl hset.symm
          · rw [lookupA_setVal_ne d p q "I" hq] at hset
            exact Or.inr hset
      · rw [if_neg h2] at h; exact Or.inr h

theorem lookupA_setVal_writes (d : StatusMap) (k q : FPath) (v w : String)
    (h : lookupA (setVal d k v) q = some w) : w = v ∨ lookupA d q = some w := by
  by_cases hq : q = k
  · subst hq
    rw [lookupA_setVal_self] at h
    rcases hv : lookupA d q with _ | u
    · rw [hv] at h; simp at h
    · rw [hv] at h; simp at h; exact Or.inl h.symm
  · rw [lookupA_setVal_ne d k q v hq] at h
    exact Or.inr h

theorem lookupA_mark_writes (base : FPath) (d : StatusMap) (m q : FPath) (v : String)
    (h : lookupA (markExportAndAncestors base d m) q = some v) :
    v = "E" ∨ v = "I" ∨ lookupA d q = some v := by
  rcases lookupA_walkFuel_writes _ _ _ _ _ _ h with hI | hset
  · exact Or.inr (Or.inl hI)
  · rcases lookupA_setVal_writes _ _ _ _ _ hset with hE | hold
    · exact Or.inl hE
    · exact Or.inr (Or.inr hold)

theorem lookupA_markFold_writes (base : FPath) (ms : List FPath) (d : StatusMap)
    (q : FPath) (v : String)
    (h : lookupA (ms.foldl (markExportAndAncestors base) d) q = some v) :
    v = "E" ∨ v = "I" ∨ lookupA d q = some v := by
  induction ms generalizing d with
  | nil => exact Or.inr (Or.inr h)
  | cons m rest ih =>
    rcases ih (markExportAndAncestors base d m) h with hE | hI | hold
    · exact Or.inl hE
    · exact Or.inr (Or.inl hI)
    · exact lookupA_mark_writes base d m q v hold

theorem lookupA_reclassify_writes (pat : FPath → Bool) (d : StatusMap) (base : FPath)
    (q : FPath) (v : String)
    (h : lookupA (reclassify_matching_paths pat d base).1 q = some v) :
    v = "E" ∨ v = "I" ∨ lookupA d q = some v :=
  lookupA_markFold_writes base ((keysA d).filter pat) d q v h

theorem lookupA_classifyAll_writes (pats : List (FPath → Bool)) (base : FPath)
    (d : StatusMap) (q : FPath) (v : String)
    (h : lookupA (classifyAll pats base d) q = some v) :
    v = "E" ∨ v = "I" ∨ lookupA d q = some v := by
  induction pats generalizing d with
  | nil => exact Or.inr (Or.inr h)
  | cons pat rest ih =>
    have h' : lookupA (classifyAll rest base (reclassify_matching_paths pat d base).1) q
        = some v := h
    rcases ih (reclassify_matching_paths pat d base).1 h' with hE | hI | hold
    · exact Or.inl hE
    · exact Or.inr (Or.inl hI)
    · exact lookupA_reclassify_writes pat d base q v hold

/-! ## When a matched path is guaranteed to end up `"E"` -/

theorem not_self_prefix_dropLast (q : FPath) (hq : q ≠ []) : ¬ q <+: q.dropLast := by
  intro h
  have hlen := h.length_le
  rw [List.length_dropLast] at hlen
  have : 0 < q.length := List.length_pos.mpr hq
  omega

theorem lookupA_mark_not_under (base : FPath) (d : StatusMap) (m q : FPath)
    (h : ¬ q <+: m) : lookupA (markExportAndAncestors base d m) q = lookupA d q := by
  unfold markExportAndAncestors
  rw [lookupA_walkFuel_stable _ _ _ _ _
    (fun hpre => h (hpre.trans (List.dropLast_prefix m)))]
  exact lookupA_setVal_ne d m q "E" (fun hqm => h (hqm ▸ List.prefix_refl q))

theorem lookupA_mark_keep_E (base : FPath) (d : StatusMap) (m q : FPath)
    (hq : q ≠ []) (hnp : ¬ (q <+: m ∧ q ≠ m)) (hE : lookupA d q = some "E") :
    lookupA (markExportAndAncestors base d m) q = some "E" := by
  by_cases hqm : q = m
  · subst hqm
    unfold markExportAndAncestors
    rw [lookupA_walkFuel_stable _ _ _ _ _ (not_self_prefix_dropLast q hq)]
    rw [lookupA_setVal_self, hE]
    rfl
  · have : ¬ q <+: m := fun hpre => hnp ⟨hpre, hqm⟩
    rw [lookupA_mark_not_under base d m q this]
    exact hE

theorem lookupA_mark_sets_E (base : FPath) (d : StatusMap) (m : FPath)
    (hmem : m ∈ keysA d) (hm : m ≠ []) :
    lookupA (markExportAndAncestors base d m) m = some "E" := by
  unfold markExportAndAncestors
  rw [lookupA_walkFuel_stable _ _ _ _ _ (not_self_prefix_dropLast m hm)]
  rw [lookupA_setVal_self]
  obtain ⟨v, hv⟩ := lookupA_isSome_of_mem_keys d m hmem
  rw [hv]
  rfl

theorem lookupA_markFold_keep_E (base : FPath) (ms : List FPath) (d : StatusMap) (q : FPath)
    (hq : q ≠ []) (hnp : ∀ m ∈ ms, ¬ (q <+: m ∧ q ≠ m)) (hE : lookupA d q = some "E") :
    lookupA (ms.foldl (markExportAndAncestors base) d) q = some "E" := by
  induction ms generalizing d with
  | nil => exact hE
  | cons m rest ih =>
    exact ih (markExportAndAncestors base d m) (fun m' hm' => hnp m' (List.mem_cons_of_mem m hm'))
      (lookupA_mark_keep_E base d m q hq (hnp m (List.mem_cons_self m rest)) hE)

theorem lookupA_markFold_sets_E (base : FPath) (ms : List FPath) (d : StatusMap) (q : FPath)
    (hq : q ≠ []) (hmem : q ∈ ms) (hnp : ∀ m ∈ ms, ¬ (q <+: m ∧ q ≠ m))
    (hkey : q ∈ keysA d) :
    lookupA (ms.foldl (markExportAndAncestors base) d) q = some "E" := by
  induction ms generalizing d with
  | nil => simp at hmem
  | cons m rest ih =>
    by_cases hqm : q = m
    · subst hqm
      exact lookupA_markFold_keep_E base rest (markExportAndAncestors base d q) q hq
        (fun m' hm' => hnp m' (List.mem_cons_of_mem q hm'))
        (lookupA_mark_sets_E base d q hkey hq)
    · have hmem' : q ∈ rest := by
        rcases List.mem_cons.mp hmem with h | h
        · exact absurd h hqm
        · exact h
      exact ih (markExportAndAncestors base d m) hmem'
        (fun m' hm' => hnp m' (List.mem_cons_of_mem m hm'))
        ((keysA_markExportAndAncestors base d m) ▸ hkey)

theorem lookupA_reclassify_sets_E (pat : FPath → Bool) (d : StatusMap) (base : FPath)
    (q : FPath) (hq : q ≠ []) (hkey : q ∈ keysA d) (hpat : pat q = true)
    (hnp : ∀ m ∈ keysA d, pat m = true → ¬ (q <+: m ∧ q ≠ m)) :
    lookupA (reclassify_matching_paths pat d base).1 q = some "E" := by
  apply lookupA_markFold_sets_E base ((keysA d).filter pat) d q hq
  · exact List.mem_filter.mpr ⟨hkey, hpat⟩
  · intro m hm
    have := List.mem_filter.mp hm
    exact hnp m this.1 this.2
  · exact hkey

theorem lookupA_reclassify_keep_E (pat : FPath → Bool) (d : StatusMap) (base : FPath)
    (q : FPath) (hq : q ≠ []) (hE : lookupA d q = some "E")
    (hnp : ∀ m ∈ keysA d, pat m = true → ¬ (q <+: m ∧ q ≠ m)) :
    lookupA (reclassify_matching_paths pat d base).1 q = some "E" := by
  apply lookupA_markFold_keep_E base ((keysA d).filter pat) d q hq _ hE
  intro m hm
  have := List.mem_filter.mp hm
  exact hnp m this.1 this.2

theorem lookupA_classifyAll_keep_E (pats : List (FPath → Bool)) (base : FPath)
    (d : StatusMap) (q : FPath) (hq : q ≠ []) (hE : lookupA d q = some "E")
    (hnp : ∀ pat ∈ pats, ∀ m ∈ keysA d, pat m = true → ¬ (q <+: m ∧ q ≠ m)) :
    lookupA (classifyAll pats base d) q = some "E" := by
  induction pats generalizing d with
  | nil => exact hE
  | cons pat rest ih =>
    show lookupA (classifyAll rest base (reclassify_matching_paths pat d base).1) q = some "E"
    apply ih (reclassify_matching_paths pat d base).1
    · exact lookupA_reclassify_keep_E pat d base q hq hE
        (fun m hm hpm => hnp pat (List.mem_cons_self pat rest) m hm hpm)
    · intro pat' hpat' m hm hpm
      rw [keysA_reclassify] at hm
      exact hnp pat' (List.mem_cons_of_mem pat hpat') m hm hpm

/-! ## Concrete classification fixtures -/

/-- A pattern matching both the directory `b/d` and the file `b/d/f`. -/
def patBoth : FPath → Bool := fun p => decide (p = ["b", "d"]) || decide (p = ["b", "d", "f"])

/-- A pattern matching only the directory `b/d`. -/
def patDir : FPath → Bool := fun p => decide (p = ["b", "d"])

/-- A pattern matching only the file `b/d/f`. -/
def patFile : FPath → Bool := fun p => decide (p = ["b", "d", "f"])

/-- A snapshot of a processed root `b` holding a directory `b/d` and a file
`b/d/f`, both initially `"S"` (Skip). -/
def snapC1 : StatusMap := [(["b", "d"], "S"), (["b", "d", "f"], "S")]

/-- A pattern matching only the file `b/f`. -/
def patW2 : FPath → Bool := fun p => decide (p = ["b", "f"])

/-- A snapshot of root `b` holding the single file `b/f`, initially `"S"`. -/
def snapW2 : StatusMap := [(["b", "f"], "S")]

/-- C1 (counterexample): the ancestor-marking walk of
`reclassify_matching_paths` does NOT leave an already-`Export` ancestor
untouched.  With a single pattern matching both the directory `b/d` and the
file `b/d/f`, the directory is first assigned `"E"` and is then overwritten
to `"I"` by the walk started from the file, so a path once marked Export
does not keep disposition Export in the final map. -/
theorem claim_C1_counterexample :
    patBoth ["b", "d"] = true ∧
    lookupA (classifyAll [patBoth] ["b"] snapC1) ["b", "d"] = some "I" ∧
    lookupA (classifyAll [patBoth] ["b"] snapC1) ["b", "d", "f"] = some "E" :=
  ⟨by decide, by decide, by decide⟩

/-- C1 (amended): classification only ever writes the dispositions `"E"`
and `"I"`; hence a path whose final disposition is `"S"` (Skip) already had
disposition `"S"` in the snapshot.  A path once marked Export can later be
downgraded, but only to Ignore by an ancestor-marking walk — never back to
Skip. -/
theorem claim_C1_amended (pats : List (FPath → Bool)) (base : FPath) (d : StatusMap)
    (q : FPath) (h : lookupA (classifyAll pats base d) q = some "S") :
    lookupA d q = some "S" := by
  rcases lookupA_classifyAll_writes pats base d q "S" h with hE | hI | hold
  · exact absurd hE (by decide)
  · exact absurd hI (by decide)
  · exact hold

/-- C1 (witness): concrete instantiation of `claim_C1_amended`: the file
`b/d/f` is untouched by the pattern matching only `b/d`, so its final `"S"`
traces back to the initial `"S"`. -/
theorem claim_C1_witness :
    lookupA (classifyAll [patDir] ["b"] snapC1) ["b", "d", "f"] = some "S" ∧
    lookupA snapC1 ["b", "d", "f"] = some "S" :=
  ⟨by decide, claim_C1_amended [patDir] ["b"] snapC1 ["b", "d", "f"] (by decide)⟩

/-- C2 (counterexample): the final disposition map does depend on the order
in which patterns are applied, and a path matching an export pattern can end
with disposition `"I"` instead of `"E"`: applying the directory pattern
before the file pattern leaves `b/d` at `"I"`, the reverse order leaves it
at `"E"`. -/
theorem claim_C2_counterexample :
    classifyAll [patDir, patFile] ["b"] snapC1 ≠ classifyAll [patFile, patDir] ["b"] snapC1 ∧
    patDir ["b", "d"] = true ∧
    lookupA (classifyAll [patDir, patFile] ["b"] snapC1) ["b", "d"] = some "I" ∧
    lookupA (classifyAll [patFile, patDir] ["b"] snapC1) ["b", "d"] = some "E" :=
  ⟨by decide, by decide, by decide, by decide⟩

/-- C2 (amended): the dominance rule holds only for matched paths that are
not strict ancestors of other matched paths: for every snapshot, pattern
set and application order, a nonempty path that matches at least one
pattern and is not a strict ancestor of any matched path has final
disposition `"E"` (Export).  Full order-independence of the map fails (see
the counterexample): a matched path that is a strict ancestor of another
matched path may end as Export or Ignore depending on the order. -/
theorem claim_C2_amended (pats : List (FPath → Bool)) (base : FPath) (d : StatusMap)
    (q : FPath) (hq : q ≠ []) (hkey : q ∈ keysA d)
    (hmatch : ∃ pat ∈ pats, pat q = true)
    (hnp : ∀ pat ∈ pats, ∀ m ∈ keysA d, pat m = true → ¬ (q <+: m ∧ q ≠ m)) :
    lookupA (classifyAll pats base d) q = some "E" := by
  induction pats generalizing d with
  | nil => obtain ⟨pat, hpat, -⟩ := hmatch; simp at hpat
  | cons pat rest ih =>
    show lookupA (classifyAll rest base (reclassify_matching_paths pat d base).1) q = some "E"
    by_cases hpq : pat q = true
    · apply lookupA_classifyAll_keep_E rest base _ q hq
      · exact lookupA_reclassify_sets_E pat d base q hq hkey hpq
          (fun m hm hpm => hnp pat (List.mem_cons_self pat rest) m hm hpm)
      · intro pat' hpat' m hm hpm
        rw [keysA_reclassify] at hm
        exact hnp pat' (List.mem_cons_of_mem pat hpat') m hm hpm
    · have hmatch' : ∃ pat' ∈ rest, pat' q = true := by
        obtain ⟨pat', hpat', hq'⟩ := hmatch
        rcases List.mem_cons.mp hpat' with h | h
        · exact absurd (h ▸ hq') hpq
        · exact ⟨pat', h, hq'⟩
      apply ih (reclassify_matching_paths pat d base).1
      · rw [keysA_reclassify]; exact hkey
      · exact hmatch'
      · intro pat' hpat' m hm hpm
        rw [keysA_reclassify] at hm
        exact hnp pat' (List.mem_cons_of_mem pat hpat') m hm hpm

/-- C2 (witness): concrete instantiation of `claim_C2_amended`: the lone
file `b/f` matches the lone pattern and is no ancestor, so it ends `"E"`. -/
theorem claim_C2_witness :
    (["b", "f"] : FPath) ≠ [] ∧ (["b", "f"] : FPath) ∈ keysA snapW2 ∧
    lookupA (classifyAll [patW2] ["b"] snapW2) ["b", "f"] = some "E" :=
  ⟨by decide, by decide,
    claim_C2_amended [patW2] ["b"] snapW2 ["b", "f"] (by decide) (by decide)
      ⟨patW2, List.mem_cons_self patW2 [], by decide⟩
      (by
        intro pat hp m hm hpm
        have hm' : m = ["b", "f"] := by simpa [keysA, snapW2] using hm
        subst hm'
        rintro ⟨-, hne⟩
        exact hne rfl)⟩

/-! ## `TSOPPI_shared_functions.py`: allow-list matching and nomenclature -/

/-- The function `find_ID_match` (TSOPPI_shared_functions.py lines 73-81): report the
approved IDs matching the given sample ID.  With method `"prefix"`, an
approved ID matches when `sample_id.startswith(id_candidate)`, i.e. when
the approved ID is a prefix of the sample ID; any other method keyword
yields the empty match list. -/
def find_ID_match (sample_id : String) (approved_ids : List String) (method : String) :
    List String :=
  if method = "prefix" then
    approved_ids.filter (fun id_candidate => id_candidate.data.isPrefixOf sample_id.data)
  else []

/-- The allow-list matching rule as worded by the spec, for comparison with
the source's `find_ID_match`: a sample ID is eligible if it is an exact
prefix of at least one allow-list entry's target string. -/
def spec_allow_list_eligible (sample_id : String) (approved_ids : List String) : Bool :=
  approved_ids.any (fun entry => sample_id.data.isPrefixOf entry.data)

/-- C4 (counterexample): the spec's scenario input separates the claimed
rule from the code.  For sample `SID1` and allow-list entry `"SID"`, the
code's `find_ID_match` reports a match (the entry is a prefix of the sample
ID), while the claimed rule — the sample ID being a prefix of the entry —
declares `SID1` ineligible; so the claimed "eligible iff the ID is a prefix
of an entry" is false of the code. -/
theorem claim_C4_counterexample :
    find_ID_match "SID1" ["SID"] "prefix" = ["SID"] ∧
    spec_allow_list_eligible "SID1" ["SID"] = false :=
  ⟨by decide, by decide⟩

/-- C4 (amended): the prefix direction is the reverse of the claim: a
sample ID is eligible (its `find_ID_match` result is nonempty) if and only
if at least one allow-list entry is an exact prefix of the sample ID; under
this rule, sample `SID1` with allow-list entry `"SID"` is eligible. -/
theorem claim_C4_amended :
    (∀ (sample_id : String) (approved_ids : List String),
        find_ID_match sample_id approved_ids "prefix" ≠ [] ↔
          ∃ entry ∈ approved_ids, entry.data <+: sample_id.data) ∧
    find_ID_match "SID1" ["SID"] "prefix" = ["SID"] := by
  constructor
  · intro sample_id approved_ids
    unfold find_ID_match
    rw [if_pos rfl]
    constructor
    · intro hne
      by_contra hno
      push_neg at hno
      apply hne
      apply List.filter_eq_nil_iff.mpr
      intro entry hentry hpre
      exact hno entry hentry (List.isPrefixOf_iff_prefix.mp hpre)
    · rintro ⟨entry, hentry, hpre⟩ hnil
      rw [List.filter_eq_nil_iff] at hnil
      exact hnil entry hentry (List.isPrefixOf_iff_prefix.mpr hpre)
  · decide

/-- C4 (witness): concrete instantiation of the amended rule: entry `"A"`
is a prefix of sample ID `"AB"`, so `find_ID_match` reports a match. -/
theorem claim_C4_witness : find_ID_match "AB" ["A"] "prefix" ≠ [] :=
  (claim_C4_amended.1 "AB" ["A"]).mpr
    ⟨"A", by decide, List.isPrefixOf_iff_prefix.mp (by decide)⟩

/-- Character test at position `i` of a character list: true when position
`i` exists and its character satisfies `p` (one fixed-width slot of the
InPreD regex). -/
def atIs (l : List Char) (i : Nat) (p : Char → Bool) : Bool :=
  match l.get? i with
  | some c => p c
  | none => false

/-- Python `re`'s `$` anchor outside MULTILINE mode also matches just
before a single trailing newline: strip that newline if present. -/
def dollarTrim (l : List Char) : List Char :=
  if l.getLast? = some '\n' then l.dropLast else l

/-- The InPreD nomenclature version 3 regex
`^IP[ADHO][0-9]{4}-[CDR](0[1-7]|50|51)-[ACDdEeLMNPpRrTX][0-9]{2}-[ABCEFMS]([0-2][0-9]|30|XX)$`
as a fixed-width (19-character) matcher over an already-`$`-trimmed
character list. -/
def inpredCheck (l : List Char) : Bool :=
  decide (l.length = 19) &&
  (atIs l 0 (fun c => c = 'I') &&
  (atIs l 1 (fun c => c = 'P') &&
  (atIs l 2 (fun c => c = 'A' || c = 'D' || c = 'H' || c = 'O') &&
  (atIs l 3 Char.isDigit &&
  (atIs l 4 Char.isDigit &&
  (atIs l 5 Char.isDigit &&
  (atIs l 6 Char.isDigit &&
  (atIs l 7 (fun c => c = '-') &&
  (atIs l 8 (fun c => c = 'C' || c = 'D' || c = 'R') &&
  ((atIs l 9 (fun c => c = '0') && atIs l 10 (fun c => '1' ≤ c && c ≤ '7') ||
    atIs l 9 (fun c => c = '5') && atIs l 10 (fun c => c = '0' || c = '1')) &&
  (atIs l 11 (fun c => c = '-') &&
  (atIs l 12 (fun c => c = 'A' || c = 'C' || c = 'D' || c = 'd' || c = 'E' || c = 'e' ||
      c = 'L' || c = 'M' || c = 'N' || c = 'P' || c = 'p' || c = 'R' || c = 'r' ||
      c = 'T' || c = 'X') &&
  (atIs l 13 Char.isDigit &&
  (atIs l 14 Char.isDigit &&
  (atIs l 15 (fun c => c = '-') &&
  (atIs l 16 (fun c => c = 'A' || c = 'B' || c = 'C' || c = 'E' || c = 'F' ||
      c = 'M' || c = 'S') &&
  (atIs l 17 (fun c => '0' ≤ c && c ≤ '2') && atIs l 18 Char.isDigit ||
   atIs l 17 (fun c => c = '3') && atIs l 18 (fun c => c = '0') ||
   atIs l 17 (fun c => c = 'X') && atIs l 18 (fun c => c = 'X'))))))))))))))))))

/-- The function `is_InPreD_ID` (TSOPPI_shared_functions.py lines 84-89): whether the
supplied string value is a valid InPreD (version 3) ID, via
`re.match(id_regex, input_ID) is not None`. -/
def is_InPreD_ID (input_ID : String) : Bool :=
  inpredCheck (dollarTrim input_ID.data)

/-- The InPreD-nomenclature exclusion condition of `main`
(SADET.py lines 450 and 603): a matched sample is excluded exactly when
`require_inpred_nomenclature` is set and `is_InPreD_ID` rejects its ID. -/
def nomenclature_excludes (require_inpred_nomenclature : Bool) (sample_id : String) : Bool :=
  require_inpred_nomenclature && !(is_InPreD_ID sample_id)

theorem atIs_true_exists (l : List Char) (i : Nat) (p : Char → Bool)
    (h : atIs l i p = true) : ∃ c, l.get? i = some c ∧ p c = true := by
  unfold atIs at h
  rcases hg : l.get? i with _ | c
  · rw [hg] at h; simp at h
  · rw [hg] at h; exact ⟨c, rfl, h⟩

theorem inpredCheck_take_two (l : List Char) (h : inpredCheck l = true) :
    l.take 2 = ['I', 'P'] := by
  unfold inpredCheck at h
  simp only [Bool.and_eq_true] at h
  obtain ⟨-, h0, h1, -⟩ := h
  obtain ⟨c0, hg0, hp0⟩ := atIs_true_exists l 0 _ h0
  obtain ⟨c1, hg1, hp1⟩ := atIs_true_exists l 1 _ h1
  have hc0 : c0 = 'I' := by simpa using hp0
  have hc1 : c1 = 'P' := by simpa using hp1
  cases l with
  | nil => simp at hg0
  | cons a t =>
    cases t with
    | nil => simp at hg1
    | cons b t' =>
      have ha : a = c0 := by simpa using hg0
      have hb : b = c1 := by simpa using hg1
      subst ha hb hc0 hc1
      rfl

theorem inpredCheck_length (l : List Char) (h : inpredCheck l = true) :
    l.length = 19 := by
  unfold inpredCheck at h
  simp only [Bool.and_eq_true] at h
  exact of_decide_eq_true h.1

theorem is_InPreD_ID_take_two (s : String) (h : is_InPreD_ID s = true) :
    s.data.take 2 = ['I', 'P'] := by
  unfold is_InPreD_ID dollarTrim at h
  by_cases hnl : s.data.getLast? = some '\n'
  · rw [if_pos hnl] at h
    have hlen := inpredCheck_length _ h
    rw [List.length_dropLast] at hlen
    have h2 := inpredCheck_take_two _ h
    rw [List.dropLast_eq_take, List.take_take] at h2
    have hmin : min 2 (s.data.length - 1) = 2 := by omega
    rwa [hmin] at h2
  · rw [if_neg hnl] at h
    exact inpredCheck_take_two _ h

/-- C8: the InPreD nomenclature check accepts `"IPD0001-R01-T01-S01"`,
rejects every string that lacks the leading `IP` tag, and takes no input
from the `require_inpred_nomenclature` flag — the flag only gates whether a
rejection excludes the sample (no exclusion with the flag off; with the
flag on, exclusion exactly on rejection). -/
theorem claim_C8 :
    is_InPreD_ID "IPD0001-R01-T01-S01" = true ∧
    (∀ s : String, s.data.take 2 ≠ ['I', 'P'] → is_InPreD_ID s = false) ∧
    (∀ sample_id : String, nomenclature_excludes false sample_id = false) ∧
    (∀ sample_id : String,
      nomenclature_excludes true sample_id = !(is_InPreD_ID sample_id)) := by
  refine ⟨by decide, ?_, ?_, ?_⟩
  · intro s hs
    rcases hr : is_InPreD_ID s with _ | _
    · rfl
    · exact absurd (is_InPreD_ID_take_two s hr) hs
  · intro sample_id; rfl
  · intro sample_id; simp [nomenclature_excludes]

/-- C8 (witness): concrete instantiation: `"XPD0001-R01-T01-S01"` lacks the
leading `IP` tag and is rejected. -/
theorem claim_C8_witness :
    ("XPD0001-R01-T01-S01".data.take 2 ≠ ['I', 'P']) ∧
    is_InPreD_ID "XPD0001-R01-T01-S01" = false :=
  ⟨by decide, claim_C8.2.1 "XPD0001-R01-T01-S01" (by decide)⟩

/-! ## Loading the sample-ID allow-list (SADET.py lines 315-326) -/

/-- Processing of one data line of the sample-ID list file after the header
(SADET.py lines 315-326).  The state is the pair
(`ID_prefix_list`, list of warnings issued so far); `matching_method` and
`ID_string` are the two extracted fields.  An ID that is neither `""` nor
`"."` is appended when the method is `"prefix"` and otherwise ignored with
a warning; an empty ID is ignored with a warning; the ID `"."` falls
through both branches and is ignored silently.  No branch terminates the
program. -/
def processIDLine (acc : List String × List String) (matching_method ID_string : String) :
    List String × List String :=
  if ¬ (ID_string = "" ∨ ID_string = ".") then
    if matching_method = "prefix" then (acc.1 ++ [ID_string], acc.2)
    else (acc.1, acc.2 ++ ["unsupported matching method: " ++ matching_method ++
      " for ID " ++ ID_string])
  else if ID_string = "" then
    (acc.1, acc.2 ++ ["unsupported ID string: " ++ ID_string])
  else acc

/-- C7 (counterexample): an allow-list entry whose ID string is `"."` is
ignored, but — contrary to the claim — without any warning: the state is
returned completely unchanged (the `elif` only fires for the empty
string). -/
theorem claim_C7_counterexample :
    processIDLine ([], []) "prefix" "." = ([], []) ∧
    (processIDLine ([], []) "prefix" ".").2 = [] :=
  ⟨by decide, by decide⟩

/-- C7 (amended): an entry with a matching-method tag other than `"prefix"`
(and a usable ID) is ignored with a warning; an entry with an empty ID
string is ignored with a warning; an entry with ID string `"."` is ignored
silently (no warning).  In every case the ID-prefix list is unchanged and
processing continues — `processIDLine` is total and never terminates the
program. -/
theorem claim_C7_amended (acc : List String × List String)
    (matching_method ID_string : String) :
    (matching_method ≠ "prefix" → ID_string ≠ "" → ID_string ≠ "." →
      processIDLine acc matching_method ID_string =
        (acc.1, acc.2 ++ ["unsupported matching method: " ++ matching_method ++
          " for ID " ++ ID_string])) ∧
    (ID_string = "" →
      processIDLine acc matching_method ID_string =
        (acc.1, acc.2 ++ ["unsupported ID string: " ++ ID_string])) ∧
    (ID_string = "." → processIDLine acc matching_method ID_string = acc) := by
  refine ⟨?_, ?_, ?_⟩
  · intro hm h0 hdot
    unfold processIDLine
    rw [if_pos (by simp [h0, hdot]), if_neg hm]
  · intro h0
    subst h0
    unfold processIDLine
    rw [if_neg (by simp), if_pos rfl]
  · intro hdot
    subst hdot
    unfold processIDLine
    rw [if_neg (by simp), if_neg (by decide)]

/-- C7 (witness): concrete instantiations of all three branches of the
amended claim. -/
theorem claim_C7_witness :
    (("glob" : String) ≠ "prefix" ∧ ("X1" : String) ≠ "" ∧ ("X1" : String) ≠ "." ∧
      processIDLine (["A"], []) "glob" "X1" =
        (["A"], ["unsupported matching method: glob for ID X1"])) ∧
    processIDLine (["A"], []) "prefix" "" = (["A"], ["unsupported ID string: "]) ∧
    processIDLine (["A"], []) "prefix" "." = (["A"], []) :=
  ⟨⟨by decide, by decide, by decide,
      (claim_C7_amended (["A"], []) "glob" "X1").1 (by decide) (by decide) (by decide)⟩,
    (claim_C7_amended (["A"], []) "prefix" "").2.1 rfl,
    (claim_C7_amended (["A"], []) "prefix" ".").2.2 rfl⟩

/-! ## The Export Plan Writer (SADET.py lines 664-694) -/

/-- Python control-flow outcomes that abort normal processing: `exit(n)`
with a specific exit code, or an uncaught `IndexError`. -/
inductive PyExit where
  | exitCode : Nat → PyExit
  | indexError : PyExit
deriving DecidableEq

/-- The root-relative output form of a path (SADET.py lines 676, 685, 688):
the processed root's own directory name followed by the path's components
below the root. -/
def relPath (dirName : String) (base : FPath) (fp : FPath) : FPath :=
  dirName :: fp.drop base.length

/-- The output loop of `main` (SADET.py lines 673-694) over the remaining
dict entries, threading the accumulated export list, skip list and
ignored-entry count.  Each path is relativized against
`input_dir_cont_path + "/"` via `TSF.strip_path_prefix`; at the component
level that string prefix is present exactly when the root's components are
a proper prefix of the path's components.  `"S"` entries are appended to
the skip list, `"E"` entries to the export list, `"I"` entries are only
counted; a missing prefix is fatal (`exit(19)`), as is any other status
code (`exit(20)`). -/
def writePlanAux (dirName : String) (base : FPath) :
    StatusMap → List FPath × List FPath × Nat →
      Except PyExit (List FPath × List FPath × Nat)
  | [], acc => .ok acc
  | (fp, status) :: rest, (ex, sk, ign) =>
    if base <+: fp ∧ base.length < fp.length then
      if status = "S" then
        writePlanAux dirName base rest (ex, sk ++ [relPath dirName base fp], ign)
      else if status = "E" then
        writePlanAux dirName base rest (ex ++ [relPath dirName base fp], sk, ign)
      else if status = "I" then
        writePlanAux dirName base rest (ex, sk, ign + 1)
      else .error (.exitCode 20)
    else .error (.exitCode 19)

/-- The Export Plan Writer: partition the merged disposition map into the
export list, the skip list and the count of ignored entries, starting from
empty accumulators. -/
def writePlan (dirName : String) (base : FPath) (m : StatusMap) :
    Except PyExit (List FPath × List FPath × Nat) :=
  writePlanAux dirName base m ([], [], 0)

theorem writePlanAux_ok (dirName : String) (base : FPath) (m : StatusMap)
    (ex0 sk0 : List FPath) (ign0 : Nat) (ex sk : List FPath) (ign : Nat)
    (h : writePlanAux dirName base m (ex0, sk0, ign0) = .ok (ex, sk, ign)) :
    ex = ex0 ++ (m.filter (fun e => e.2 == "E")).map (fun e => relPath dirName base e.1) ∧
    sk = sk0 ++ (m.filter (fun e => e.2 == "S")).map (fun e => relPath dirName base e.1) ∧
    ign = ign0 + (m.filter (fun e => e.2 == "I")).length ∧
    ∀ e ∈ m, (base <+: e.1 ∧ base.length < e.1.length) ∧
      (e.2 = "S" ∨ e.2 = "E" ∨ e.2 = "I") := by
  induction m generalizing ex0 sk0 ign0 with
  | nil =>
    simp only [writePlanAux, Except.ok.injEq] at h
    obtain ⟨rfl, rfl, rfl⟩ := h
    simp
  | cons e rest ih =>
    obtain ⟨fp, status⟩ := e
    simp only [writePlanAux] at h
    by_cases hpre : base <+: fp ∧ base.length < fp.length
    · rw [if_pos hpre] at h
      by_cases hS : status = "S"
      · rw [if_pos hS] at h
        obtain ⟨hex, hsk, hign, hall⟩ := ih _ _ _ h
        subst hS
        refine ⟨?_, ?_, ?_, ?_⟩
        · simpa [List.filter_cons] using hex
        · rw [hsk]; simp [List.filter_cons, relPath]
        · simpa [List.filter_cons] using hign
        · intro e' he'
          rcases List.mem_cons.mp he' with rfl | hmem'
          · exact ⟨hpre, Or.inl rfl⟩
          · exact hall e' hmem'
      · rw [if_neg hS] at h
        by_cases hE : status = "E"
        · rw [if_pos hE] at h
          obtain ⟨hex, hsk, hign, hall⟩ := ih _ _ _ h
          subst hE
          refine ⟨?_, ?_, ?_, ?_⟩
          · rw [hex]; simp [List.filter_cons, relPath]
          · simpa [List.filter_cons] using hsk
          · simpa [List.filter_cons] using hign
          · intro e' he'
            rcases List.mem_cons.mp he' with rfl | hmem'
            · exact ⟨hpre, Or.inr (Or.inl rfl)⟩
            · exact hall e' hmem'
        · rw [if_neg hE] at h
          by_cases hI : status = "I"
          · rw [if_pos hI] at h
            obtain ⟨hex, hsk, hign, hall⟩ := ih _ _ _ h
            subst hI
            refine ⟨?_, ?_, ?_, ?_⟩
            · simpa [List.filter_cons] using hex
            · simpa [List.filter_cons] using hsk
            · rw [hign]; simp [List.filter_cons]; omega
            · intro e' he'
              rcases List.mem_cons.mp he' with rfl | hmem'
              · exact ⟨hpre, Or.inr (Or.inr rfl)⟩
              · exact hall e' hmem'
          · rw [if_neg hI] at h
            simp at h
    · rw [if_neg hpre] at h
      simp at h

theorem relPath_inj (dirName : String) (base : FPath) (fp fp' : FPath)
    (h1 : base <+: fp) (h2 : base <+: fp')
    (h : relPath dirName base fp = relPath dirName base fp') : fp = fp' := by
  obtain ⟨t, rfl⟩ := h1
  obtain ⟨t', rfl⟩ := h2
  simp only [relPath, List.cons.injEq, List.drop_left] at h
  rw [h.2]

theorem lookupA_eq_of_mem_nodup (d : StatusMap) (hnd : (keysA d).Nodup)
    (k : FPath) (v : String) (hmem : (k, v) ∈ d) : lookupA d k = some v := by
  induction d with
  | nil => simp at hmem
  | cons e rest ih =>
    simp only [keysA, List.map_cons, List.nodup_cons] at hnd
    rcases List.mem_cons.mp hmem with rfl | hmem'
    · simp [lookupA]
    · have hk : k ∈ keysA rest := List.mem_map.mpr ⟨(k, v), hmem', rfl⟩
      have hne : e.1 ≠ k := fun he => hnd.1 (he ▸ hk)
      simp only [lookupA, if_neg hne]
      exact ih hnd.2 hmem'

theorem mem_of_lookupA_some (d : StatusMap) (k : FPath) (v : String)
    (h : lookupA d k = some v) : (k, v) ∈ d := by
  induction d with
  | nil => simp [lookupA] at h
  | cons e rest ih =>
    simp only [lookupA] at h
    by_cases he : e.1 = k
    · rw [if_pos he] at h
      obtain ⟨e1, e2⟩ := e
      simp only at he h
      subst he
      simp only [Option.some.injEq] at h
      subst h
      exact List.mem_cons_self _ _
    · rw [if_neg he] at h
      exact List.mem_cons_of_mem e (ih h)

theorem relPath_not_mem_of_other_status (dirName : String) (base : FPath) (m : StatusMap)
    (hnd : (keysA m).Nodup) (hpre : ∀ e ∈ m, base <+: e.1)
    (q : FPath) (v w : String) (hv : lookupA m q = some v) (hvw : v ≠ w) :
    relPath dirName base q ∉
      (m.filter (fun e => e.2 == w)).map (fun e => relPath dirName base e.1) := by
  intro hmem
  obtain ⟨e, hef, heq⟩ := List.mem_map.mp hmem
  have hfe := List.mem_filter.mp hef
  have hew : e.2 = w := beq_iff_eq.mp hfe.2
  have hq : (q, v) ∈ m := mem_of_lookupA_some m q v hv
  have h1 : base <+: e.1 := hpre e hfe.1
  have h2 : base <+: q := hpre (q, v) hq
  have he1q : e.1 = q := relPath_inj dirName base e.1 q h1 h2 heq
  have : lookupA m q = some w := by
    apply lookupA_eq_of_mem_nodup m hnd q w
    have : e = (q, w) := by
      obtain ⟨e1, e2⟩ := e
      simp only at he1q hew
      rw [he1q, hew]
    exact this ▸ hfe.1
  rw [hv] at this
  exact hvw (Option.some.injEq _ _ ▸ this)

theorem relPath_mem_of_status (dirName : String) (base : FPath) (m : StatusMap)
    (q : FPath) (v : String) (hv : lookupA m q = some v) :
    relPath dirName base q ∈
      (m.filter (fun e => e.2 == v)).map (fun e => relPath dirName base e.1) := by
  refine List.mem_map.mpr ⟨(q, v), ?_, rfl⟩
  exact List.mem_filter.mpr ⟨mem_of_lookupA_some m q v hv, by simp⟩

theorem filter_three_length (m : StatusMap)
    (hall : ∀ e ∈ m, e.2 = "S" ∨ e.2 = "E" ∨ e.2 = "I") :
    (m.filter (fun e => e.2 == "E")).length + (m.filter (fun e => e.2 == "S")).length +
      (m.filter (fun e => e.2 == "I")).length = m.length := by
  induction m with
  | nil => rfl
  | cons e rest ih =>
    have hrest := ih (fun e' he' => hall e' (List.mem_cons_of_mem e he'))
    rcases hall e (List.mem_cons_self e rest) with hS | hE | hI
    · simp [List.filter_cons, hS]; omega
    · simp [List.filter_cons, hE]; omega
    · simp [List.filter_cons, hI]; omega

/-- C5: at output time the export list, the skip list and the ignored
entries partition the merged disposition map: the three bucket sizes sum to
the map size, and every path in the map — which has exactly one disposition
(the map is a function on its key set) — is routed to exactly one bucket:
`"E"` to the export list only, `"S"` to the skip list only, `"I"` to
neither list (only counted). -/
theorem claim_C5 (dirName : String) (base : FPath) (m : StatusMap)
    (ex sk : List FPath) (ign : Nat) (hnd : (keysA m).Nodup)
    (h : writePlan dirName base m = .ok (ex, sk, ign)) :
    ex.length + sk.length + ign = m.length ∧
    ∀ q v, lookupA m q = some v →
      ((v = "E" ∧ relPath dirName base q ∈ ex ∧ relPath dirName base q ∉ sk) ∨
       (v = "S" ∧ relPath dirName base q ∈ sk ∧ relPath dirName base q ∉ ex) ∨
       (v = "I" ∧ relPath dirName base q ∉ ex ∧ relPath dirName base q ∉ sk)) := by
  obtain ⟨hex, hsk, hign, hall⟩ := writePlanAux_ok dirName base m [] [] 0 ex sk ign h
  simp only [List.nil_append, Nat.zero_add] at hex hsk hign
  have hpre : ∀ e ∈ m, base <+: e.1 := fun e he => (hall e he).1.1
  constructor
  · rw [hex, hsk, hign]
    simp only [List.length_map]
    exact filter_three_length m (fun e he => (hall e he).2)
  · intro q v hv
    have hstat : v = "S" ∨ v = "E" ∨ v = "I" := by
      have := (hall (q, v) (mem_of_lookupA_some m q v hv)).2
      simpa using this
    rcases hstat with rfl | rfl | rfl
    · refine Or.inr (Or.inl ⟨rfl, ?_, ?_⟩)
      · rw [hsk]; exact relPath_mem_of_status dirName base m q _ hv
      · rw [hex]
        exact relPath_not_mem_of_other_status dirName base m hnd hpre q _ _ hv (by decide)
    · refine Or.inl ⟨rfl, ?_, ?_⟩
      · rw [hex]; exact relPath_mem_of_status dirName base m q _ hv
      · rw [hsk]
        exact relPath_not_mem_of_other_status dirName base m hnd hpre q _ _ hv (by decide)
    · refine Or.inr (Or.inr ⟨rfl, ?_, ?_⟩)
      · rw [hex]
        exact relPath_not_mem_of_other_status dirName base m hnd hpre q _ _ hv (by decide)
      · rw [hsk]
        exact relPath_not_mem_of_other_status dirName base m hnd hpre q _ _ hv (by decide)

/-- A concrete merged disposition map used to instantiate the writer
theorems: a skipped file `b/x`, an exported file `b/y` and an ignored
directory `b/z` under root `b`. -/
def snapC5 : StatusMap := [(["b", "x"], "S"), (["b", "y"], "E"), (["b", "z"], "I")]

/-- C5 (witness): concrete instantiation of `claim_C5` on `snapC5`. -/
theorem claim_C5_witness :
    (keysA snapC5).Nodup ∧
    writePlan "n" ["b"] snapC5 = .ok ([["n", "y"]], [["n", "x"]], 1) ∧
    (1 + 1 + 1 = snapC5.length ∧
      ∀ q v, lookupA snapC5 q = some v →
        ((v = "E" ∧ relPath "n" ["b"] q ∈ [[("n" : String), "y"]] ∧
            relPath "n" ["b"] q ∉ [[("n" : String), "x"]]) ∨
         (v = "S" ∧ relPath "n" ["b"] q ∈ [[("n" : String), "x"]] ∧
            relPath "n" ["b"] q ∉ [[("n" : String), "y"]]) ∨
         (v = "I" ∧ relPath "n" ["b"] q ∉ [[("n" : String), "y"]] ∧
            relPath "n" ["b"] q ∉ [[("n" : String), "x"]]))) :=
  ⟨by decide, by rfl,
    claim_C5 "n" ["b"] snapC5 [["n", "y"]] [["n", "x"]] 1 (by decide) (by rfl)⟩

/-! ## The packaging step (SADET.py lines 696-733) -/

/-- The observable outcome of the final packaging phase of `main`: whether
the packaging shell script was written, whether it was executed, the
process exit code, and the final log message. -/
structure PackagingOutcome where
  script_written : Bool
  script_run : Bool
  exit_code : Nat
  final_log : String
deriving DecidableEq

/-- The final phase of `main` (SADET.py lines 696-733): if at least one
file was selected for export, write the tar/gpg/md5sum script and run it
unless `--generate_export_script_only` was set; otherwise write no script,
log that no files qualified, and exit successfully with code 0. -/
def packagingStep (generate_export_script_only : Bool) (selected_file_count : Nat) :
    PackagingOutcome :=
  if selected_file_count > 0 then
    ⟨true, !generate_export_script_only, 0, "Running the data extraction, packaging and ecryption..."⟩
  else
    ⟨false, false, 0, "No files qualified for extraction. Exiting."⟩

/-- C6: if no path in the merged disposition map has disposition `"E"`,
the export list produced by the writer is empty, and the program writes no
packaging script, runs nothing, logs that no files qualified and exits
with code 0. -/
theorem claim_C6 (dirName : String) (base : FPath) (m : StatusMap)
    (ex sk : List FPath) (ign : Nat) (generate_export_script_only : Bool)
    (h : writePlan dirName base m = .ok (ex, sk, ign))
    (hnoE : ∀ e ∈ m, e.2 ≠ "E") :
    ex = [] ∧
    packagingStep generate_export_script_only ex.length =
      ⟨false, false, 0, "No files qualified for extraction. Exiting."⟩ := by
  obtain ⟨hex, -, -, -⟩ := writePlanAux_ok dirName base m [] [] 0 ex sk ign h
  have hfil : m.filter (fun e => e.2 == "E") = [] := by
    apply List.filter_eq_nil_iff.mpr
    intro e he
    simp only [beq_iff_eq]
    exact hnoE e he
  have hex0 : ex = [] := by rw [hex, hfil]; rfl
  exact ⟨hex0, by rw [hex0]; rfl⟩

/-- A merged disposition map with no `"E"` entry: one skipped file and one
ignored directory. -/
def snapC6 : StatusMap := [(["b", "x"], "S"), (["b", "z"], "I")]

/-- C6 (witness): concrete instantiation of `claim_C6` on `snapC6`. -/
theorem claim_C6_witness :
    writePlan "n" ["b"] snapC6 = .ok ([], [["n", "x"]], 1) ∧
    (∀ e ∈ snapC6, e.2 ≠ "E") ∧
    (([] : List FPath) = [] ∧
      packagingStep true ([] : List FPath).length =
        ⟨false, false, 0, "No files qualified for extraction. Exiting."⟩) :=
  ⟨by rfl, by decide,
    claim_C6 "n" ["b"] snapC6 [] [["n", "x"]] 1 true (by rfl) (by decide)⟩

/-! ## TSOPPI-mode sample eligibility (SADET.py lines 546-662) -/

/-- Whether one TSOPPI sample-list row (`sample_type`, `sample_output_ID`)
passes the allow-list check and, when enforcement is on, the nomenclature
check (SADET.py lines 597-608). -/
def rowPasses (allow : List String) (require_inpred : Bool) (row : String × String) : Bool :=
  !(find_ID_match row.2 allow "prefix").isEmpty && (!require_inpred || is_InPreD_ID row.2)

/-- Python dict assignment `eligible_sample_dict[sample_type] = sample_id`
(SADET.py line 608) on an insertion-ordered association list keyed by
`sample_type`. -/
def typeSet (d : List (String × String)) (t v : String) : List (String × String) :=
  if t ∈ d.map Prod.fst then d.map (fun e => if e.1 = t then (t, v) else e)
  else d ++ [(t, v)]

/-- Processing of one data row of a TSOPPI `sample_list.tsv`
(SADET.py lines 591-609): increment `sample_count`, then — if the sample ID
matches the allow-list and, when enforced, the nomenclature — record the
sample keyed by its `sample_type`. -/
def registerSample (allow : List String) (require_inpred : Bool)
    (st : List (String × String) × Nat) (row : String × String) :
    List (String × String) × Nat :=
  if (find_ID_match row.2 allow "prefix").isEmpty then (st.1, st.2 + 1)
  else if require_inpred && !(is_InPreD_ID row.2) then (st.1, st.2 + 1)
  else (typeSet st.1 row.1 row.2, st.2 + 1)

/-- The eligibility fold over the data rows of one patient manifest:
`eligible_sample_dict` together with `sample_count`. -/
def resolveSamples (allow : List String) (require_inpred : Bool)
    (rows : List (String × String)) : List (String × String) × Nat :=
  rows.foldl (registerSample allow require_inpred) ([], 0)

/-- Per-patient-directory processing in TSOPPI mode
(SADET.py lines 569-660): resolve the manifest's samples, then — when not
every listed sample is eligible (`len(eligible_sample_dict) != sample_count`,
line 612) — contribute only `{L1_path: "S"}` to the merged map and evaluate
no extraction pattern; otherwise classify the sub-directory's own snapshot.
The returned flag records whether extraction patterns were evaluated.
`patterns` abstracts category selection plus placeholder substitution
(SADET.py lines 624-650): it maps the eligible-samples dict to the ordered
list of substituted pattern matchers.  Note that `reclassify_matching_paths`
is called with the input root, not the sub-directory, as its base
(line 652). -/
def processL1Dir (allow : List String) (require_inpred : Bool)
    (patterns : List (String × String) → List (FPath → Bool))
    (inputRoot dirPath : FPath) (contents : StatusMap)
    (rows : List (String × String)) : StatusMap × Bool :=
  let resolved := resolveSamples allow require_inpred rows
  if resolved.1.length ≠ resolved.2 then ([(dirPath, "S")], false)
  else (classifyAll (patterns resolved.1) inputRoot contents, true)

/-- A pattern selector evaluating no extraction pattern, for concrete
instantiations. -/
def noPatterns : List (String × String) → List (FPath → Bool) := fun _ => []

theorem registerSample_eq (allow : List String) (require_inpred : Bool)
    (st : List (String × String) × Nat) (row : String × String) :
    registerSample allow require_inpred st row =
      (if rowPasses allow require_inpred row then typeSet st.1 row.1 row.2 else st.1,
       st.2 + 1) := by
  unfold registerSample rowPasses
  cases hEmpty : (find_ID_match row.2 allow "prefix").isEmpty
  · cases require_inpred <;> cases hI : is_InPreD_ID row.2 <;> simp [hEmpty, hI]
  · simp [hEmpty]

theorem resolveFold_count (allow : List String) (require_inpred : Bool)
    (rows : List (String × String)) (e : List (String × String)) (c : Nat) :
    (rows.foldl (registerSample allow require_inpred) (e, c)).2 = c + rows.length := by
  induction rows generalizing e c with
  | nil => rfl
  | cons row rest ih =>
    rw [List.foldl_cons, registerSample_eq]
    rw [ih]
    simp only [List.length_cons]
    omega

theorem typeSet_length (d : List (String × String)) (t v : String) :
    (typeSet d t v).length ≤ d.length + 1 := by
  unfold typeSet
  by_cases h : t ∈ d.map Prod.fst
  · rw [if_pos h]; simp
  · rw [if_neg h]; simp

theorem resolveFold_length_le (allow : List String) (require_inpred : Bool)
    (rows : List (String × String)) (e : List (String × String)) (c : Nat) :
    (rows.foldl (registerSample allow require_inpred) (e, c)).1.length ≤
      e.length + rows.countP (rowPasses allow require_inpred) := by
  induction rows generalizing e c with
  | nil => simp
  | cons row rest ih =>
    rw [List.foldl_cons, registerSample_eq, List.countP_cons]
    by_cases hp : rowPasses allow require_inpred row = true
    · rw [if_pos hp]
      calc (rest.foldl (registerSample allow require_inpred)
              (typeSet e row.1 row.2, c + 1)).1.length
          ≤ (typeSet e row.1 row.2).length + rest.countP (rowPasses allow require_inpred) :=
            ih _ _
        _ ≤ e.length + 1 + rest.countP (rowPasses allow require_inpred) := by
            have := typeSet_length e row.1 row.2; omega
        _ = e.length + (rest.countP (rowPasses allow require_inpred) +
              if rowPasses allow require_inpred row then 1 else 0) := by
            rw [if_pos hp]; omega
    · rw [if_neg hp]
      calc (rest.foldl (registerSample allow require_inpred) (e, c + 1)).1.length
          ≤ e.length + rest.countP (rowPasses allow require_inpred) := ih _ _
        _ ≤ e.length + (rest.countP (rowPasses allow require_inpred) +
              if rowPasses allow require_inpred row then 1 else 0) := by omega

theorem resolve_lt_of_fail (allow : List String) (require_inpred : Bool)
    (rows : List (String × String))
    (hfail : ∃ row ∈ rows, rowPasses allow require_inpred row = false) :
    (resolveSamples allow require_inpred rows).1.length <
      (resolveSamples allow require_inpred rows).2 := by
  have hc := resolveFold_count allow require_inpred rows [] 0
  have hl := resolveFold_length_le allow require_inpred rows [] 0
  have hlt : rows.countP (rowPasses allow require_inpred) < rows.length := by
    apply Nat.lt_of_le_of_ne (List.countP_le_length _)
    intro heq
    obtain ⟨row, hrow, hfalse⟩ := hfail
    have := List.countP_eq_length.mp heq row hrow
    rw [hfalse] at this
    exact Bool.false_ne_true this
  unfold resolveSamples
  rw [hc]
  simp only [List.length_nil, Nat.zero_add] at hl ⊢
  omega

/-- C3 (counterexample): a TSOPPI patient sub-directory with one listed
sample failing the allow-list check contributes only the entry
`dirPath ↦ "S"` to the merged disposition map.  A file under the
sub-directory gets NO disposition at all (it is absent from the map, hence
written to neither output list) — not disposition Skip as the claim
states.  The "no pattern is evaluated" half does hold (flag `false`). -/
theorem claim_C3_counterexample :
    processL1Dir ["SID"] false noPatterns ["t"] ["t", "p1"]
        [(["t", "p1", "f"], "S")] [("DNA_tumor", "XXX")] =
      ([(["t", "p1"], "S")], false) ∧
    lookupA (processL1Dir ["SID"] false noPatterns ["t"] ["t", "p1"]
        [(["t", "p1", "f"], "S")] [("DNA_tumor", "XXX")]).1 ["t", "p1", "f"] = none :=
  ⟨by decide, by decide⟩

/-- C3 (amended): in TSOPPI mode, if any sample listed in a patient
sub-directory's manifest fails the allow-list or (enforced) nomenclature
check, the sub-directory itself is assigned disposition Skip, every other
path — in particular every path under the sub-directory — is absent from
the sub-directory's contribution to the merged disposition map (so it
appears in no output list), and no extraction pattern is evaluated against
the sub-directory's contents. -/
theorem claim_C3_amended (allow : List String) (require_inpred : Bool)
    (patterns : List (String × String) → List (FPath → Bool))
    (inputRoot dirPath : FPath) (contents : StatusMap)
    (rows : List (String × String))
    (hfail : ∃ row ∈ rows, rowPasses allow require_inpred row = false) :
    processL1Dir allow require_inpred patterns inputRoot dirPath contents rows =
      ([(dirPath, "S")], false) ∧
    lookupA (processL1Dir allow require_inpred patterns inputRoot dirPath
        contents rows).1 dirPath = some "S" ∧
    ∀ p : FPath, p ≠ dirPath →
      lookupA (processL1Dir allow require_inpred patterns inputRoot dirPath
        contents rows).1 p = none := by
  have hlt := resolve_lt_of_fail allow require_inpred rows hfail
  have hne : (resolveSamples allow require_inpred rows).1.length ≠
      (resolveSamples allow require_inpred rows).2 := Nat.ne_of_lt hlt
  have hres : processL1Dir allow require_inpred patterns inputRoot dirPath contents rows =
      ([(dirPath, "S")], false) := by
    unfold processL1Dir
    rw [if_pos hne]
  refine ⟨hres, ?_, ?_⟩
  · rw [hres]; simp [lookupA]
  · intro p hp
    rw [hres]
    have hdp : ¬ (dirPath = p) := fun h => hp h.symm
    simp only [lookupA, if_neg hdp]

/-- C3 (witness): concrete instantiation of `claim_C3_amended` for a
manifest with one failing sample and one file under the directory. -/
theorem claim_C3_witness :
    (∃ row ∈ [(("DNA_tumor" : String), ("XXX" : String))],
        rowPasses ["SID"] false row = false) ∧
    processL1Dir ["SID"] false noPatterns ["t"] ["t", "p1"]
        [(["t", "p1", "f"], "S")] [("DNA_tumor", "XXX")] =
      ([(["t", "p1"], "S")], false) :=
  ⟨by decide,
    (claim_C3_amended ["SID"] false noPatterns ["t"] ["t", "p1"]
      [(["t", "p1", "f"], "S")] [("DNA_tumor", "XXX")] (by decide)).1⟩

theorem typeSet_keys (d : List (String × String)) (t v : String) :
    (typeSet d t v).map Prod.fst =
      if t ∈ d.map Prod.fst then d.map Prod.fst else d.map Prod.fst ++ [t] := by
  unfold typeSet
  by_cases h : t ∈ d.map Prod.fst
  · rw [if_pos h, if_pos h, List.map_map]
    apply List.map_congr_left
    intro e he
    by_cases het : e.1 = t
    · simp [het]
    · simp [het]
  · rw [if_neg h, if_neg h]
    simp

theorem typeSet_keys_nodup (d : List (String × String)) (t v : String)
    (h : (d.map Prod.fst).Nodup) : ((typeSet d t v).map Prod.fst).Nodup := by
  rw [typeSet_keys]
  by_cases hm : t ∈ d.map Prod.fst
  · rw [if_pos hm]; exact h
  · rw [if_neg hm]
    rw [List.nodup_append]
    exact ⟨h, List.nodup_singleton t, fun a ha hat => hm (by
      rw [List.mem_singleton] at hat
      exact hat ▸ ha)⟩

theorem typeSet_keys_subset (d : List (String × String)) (t v : String) :
    (typeSet d t v).map Prod.fst ⊆ d.map Prod.fst ++ [t] := by
  rw [typeSet_keys]
  by_cases hm : t ∈ d.map Prod.fst
  · rw [if_pos hm]; exact List.subset_append_left _ _
  · rw [if_neg hm]; exact fun x hx => hx

theorem resolveFold_keys (allow : List String) (require_inpred : Bool)
    (rows : List (String × String)) (e : List (String × String)) (c : Nat)
    (he : (e.map Prod.fst).Nodup) :
    ((rows.foldl (registerSample allow require_inpred) (e, c)).1.map Prod.fst).Nodup ∧
    (rows.foldl (registerSample allow require_inpred) (e, c)).1.map Prod.fst ⊆
      e.map Prod.fst ++ rows.map Prod.fst := by
  induction rows generalizing e c with
  | nil => exact ⟨he, by simp⟩
  | cons row rest ih =>
    rw [List.foldl_cons, registerSample_eq]
    by_cases hp : rowPasses allow require_inpred row = true
    · rw [if_pos hp]
      obtain ⟨hnd, hsub⟩ := ih (typeSet e row.1 row.2) (c + 1) (typeSet_keys_nodup e _ _ he)
      refine ⟨hnd, hsub.trans ?_⟩
      rw [List.append_subset]
      constructor
      · intro x hx
        rcases List.mem_append.mp (typeSet_keys_subset e row.1 row.2 hx) with h1 | h1
        · exact List.mem_append.mpr (Or.inl h1)
        · rw [List.mem_singleton] at h1
          exact List.mem_append.mpr (Or.inr (by simp [h1]))
      · intro x hx
        exact List.mem_append.mpr (Or.inr (by simp [List.mem_cons_of_mem, hx]))
    · rw [if_neg hp]
      obtain ⟨hnd, hsub⟩ := ih e (c + 1) he
      refine ⟨hnd, hsub.trans ?_⟩
      rw [List.append_subset]
      refine ⟨List.subset_append_left _ _, ?_⟩
      intro x hx
      exact List.mem_append.mpr (Or.inr (by simp [List.mem_cons_of_mem, hx]))

theorem dedup_length_lt (l : List String) (h : ¬ l.Nodup) : l.dedup.length < l.length := by
  rcases Nat.lt_or_ge l.dedup.length l.length with h1 | h1
  · exact h1
  · exact absurd
      (l.dedup_sublist.eq_of_length (Nat.le_antisymm l.dedup_sublist.length_le h1)
        ▸ l.nodup_dedup) h

/-- C9: the per-patient record of eligible TSOPPI samples is a dict keyed
by `sample_type` (SADET.py line 608), so a manifest with two or more data
rows sharing a `sample_type` value always yields fewer eligible entries
than data rows — even when every listed sample passes the allow-list and
nomenclature checks — and the whole patient sub-directory is therefore
skipped (contribution `{dirPath: "S"}`) with no extraction pattern
evaluated against its contents. -/
theorem claim_C9 (allow : List String) (require_inpred : Bool)
    (patterns : List (String × String) → List (FPath → Bool))
    (inputRoot dirPath : FPath) (contents : StatusMap)
    (rows : List (String × String))
    (hdup : ¬ (rows.map Prod.fst).Nodup)
    (_hpass : ∀ row ∈ rows, rowPasses allow require_inpred row = true) :
    (resolveSamples allow require_inpred rows).1.length <
      (resolveSamples allow require_inpred rows).2 ∧
    processL1Dir allow require_inpred patterns inputRoot dirPath contents rows =
      ([(dirPath, "S")], false) := by
  have hkeys := resolveFold_keys allow require_inpred rows [] 0 (by simp)
  have hcount := resolveFold_count allow require_inpred rows [] 0
  have hrs : resolveSamples allow require_inpred rows =
      rows.foldl (registerSample allow require_inpred) ([], 0) := rfl
  rw [← hrs] at hkeys hcount
  have hsub : (resolveSamples allow require_inpred rows).1.map Prod.fst ⊆
      rows.map Prod.fst := by
    have := hkeys.2
    simpa using this
  have hlen : (resolveSamples allow require_inpred rows).1.length ≤
      (rows.map Prod.fst).toFinset.card := by
    have h1 : (resolveSamples allow require_inpred rows).1.length =
        ((resolveSamples allow require_inpred rows).1.map Prod.fst).length := by
      rw [List.length_map]
    have h2 : ((resolveSamples allow require_inpred rows).1.map Prod.fst).toFinset.card =
        ((resolveSamples allow require_inpred rows).1.map Prod.fst).length := by
      rw [List.card_toFinset, hkeys.1.dedup]
    have h3 : ((resolveSamples allow require_inpred rows).1.map Prod.fst).toFinset ⊆
        (rows.map Prod.fst).toFinset := by
      intro x hx
      rw [List.mem_toFinset] at hx ⊢
      exact hsub hx
    rw [h1, ← h2]
    exact Finset.card_le_card h3
  have hcard : (rows.map Prod.fst).toFinset.card < rows.length := by
    rw [List.card_toFinset]
    have := dedup_length_lt (rows.map Prod.fst) hdup
    rw [List.length_map] at this
    exact this
  have hlt : (resolveSamples allow require_inpred rows).1.length <
      (resolveSamples allow require_inpred rows).2 := by
    have hc2 : (resolveSamples allow require_inpred rows).2 = rows.length := by
      rw [hcount]; omega
    rw [hc2]
    omega
  refine ⟨hlt, ?_⟩
  unfold processL1Dir
  rw [if_pos (Nat.ne_of_lt hlt)]

/-- C9 (witness): a manifest with two `DNA_tumor` rows, both passing the
allow-list check, still gets the patient sub-directory skipped. -/
theorem claim_C9_witness :
    (¬ ([("DNA_tumor", "SID1"), ("DNA_tumor", "SID2")].map
        (Prod.fst (α := String) (β := String))).Nodup) ∧
    (∀ row ∈ [(("DNA_tumor" : String), ("SID1" : String)), ("DNA_tumor", "SID2")],
        rowPasses ["SID"] false row = true) ∧
    processL1Dir ["SID"] false noPatterns ["t"] ["t", "p1"] [(["t", "p1", "f"], "S")]
        [("DNA_tumor", "SID1"), ("DNA_tumor", "SID2")] =
      ([(["t", "p1"], "S")], false) :=
  ⟨by decide, by decide,
    (claim_C9 ["SID"] false noPatterns ["t"] ["t", "p1"] [(["t", "p1", "f"], "S")]
      [("DNA_tumor", "SID1"), ("DNA_tumor", "SID2")] (by decide) (by decide)).2⟩

/-! ## Parsing one `sample_list.tsv` line (SADET.py lines 576-609) -/

/-- The whitespace characters removed by Python's `str.strip()`. -/
def pyIsSpace (c : Char) : Bool :=
  c = ' ' || c = '\t' || c = '\n' || c = '\r' || c = '\x0b' || c = '\x0c'

/-- Python `line.strip()`: remove leading and trailing whitespace. -/
def pyStrip (l : List Char) : List Char :=
  ((l.dropWhile pyIsSpace).reverse.dropWhile pyIsSpace).reverse

/-- Python `s.split("\t")`: note that splitting the empty string yields
`[""]`, a one-element list holding the empty string — never the empty
list. -/
def pySplitTab : List Char → List (List Char)
  | [] => [[]]
  | c :: rest =>
    match pySplitTab rest with
    | [] => [[]]
    | s :: ss => if c = '\t' then [] :: s :: ss else (c :: s) :: ss

/-- Python `.lstrip("#")`: remove leading `#` characters. -/
def pyLstripHash (l : List Char) : List Char := l.dropWhile (fun c => c = '#')

/-- Python list indexing through the `sample_list_fi` dict: an index still
at its initial `-1` (modelled `none`) selects the last element; a
nonnegative index out of range is an `IndexError` (the caller maps `none`
to `.error .indexError`). -/
def getItem? (l : List (List Char)) (i : Option Nat) : Option (List Char) :=
  match i with
  | some n => l.get? n
  | none => l.getLast?

/-- The mutable state of the TSOPPI sample-list reading loop
(SADET.py lines 569-609): the two header-column indices of
`sample_list_fi` (`none` = still `-1`), `eligible_sample_dict` and
`sample_count`. -/
structure SLState where
  fi_type : Option Nat
  fi_id : Option Nat
  eligible : List (String × String)
  count : Nat
deriving DecidableEq

/-- Processing of one line of a TSOPPI `sample_list.tsv`
(SADET.py lines 576-609).  The line is stripped and tab-split; the first
character of the first field decides between the header branch
(`line_s[0][0] == "#"`: locate the `sample_type` and `sample_output_ID`
columns, `exit(18)` if one is missing) and the data branch (extract the two
fields and register the sample).  For an empty or whitespace-only line the
first field is the empty string, and `line_s[0][0]` raises an uncaught
`IndexError`. -/
def processSampleListLine (allow : List String) (require_inpred : Bool)
    (st : SLState) (line : List Char) : Except PyExit SLState :=
  let line_s := pySplitTab (pyStrip line)
  match line_s.head? with
  | none => .error .indexError
  | some f0 =>
    match f0.head? with
    | none => .error .indexError
    | some c0 =>
      if c0 = '#' then
        let hline := pySplitTab (pyLstripHash (pyStrip line))
        match hline.findIdx? (fun f => f = "sample_type".data) with
        | none => .error (.exitCode 18)
        | some i =>
          match hline.findIdx? (fun f => f = "sample_output_ID".data) with
          | none => .error (.exitCode 18)
          | some j => .ok { st with fi_type := some i, fi_id := some j }
      else
        match getItem? line_s st.fi_type, getItem? line_s st.fi_id with
        | some stype, some sid =>
          let r := registerSample allow require_inpred (st.eligible, st.count)
            (String.mk stype, String.mk sid)
          .ok { st with eligible := r.1, count := r.2 }
        | _, _ => .error .indexError

/-- C10: a TSOPPI `sample_list.tsv` manifest line that is empty or
whitespace-only makes the eligibility resolver fail with an uncaught
`IndexError` — `line.strip().split("\t")` yields `[""]` and `line_s[0][0]`
indexes into the empty string — rather than terminating with a specific
fatal exit code or continuing with an advisory warning (the `IndexError`
outcome is distinct from every `exit(n)` outcome). -/
theorem claim_C10 :
    processSampleListLine ["SID"] false ⟨some 0, some 1, [], 0⟩ "   ".data =
      .error .indexError ∧
    processSampleListLine ["SID"] false ⟨some 0, some 1, [], 0⟩ [] =
      .error .indexError ∧
    (∀ n : Nat, (PyExit.indexError : PyExit) ≠ .exitCode n) := by
  refine ⟨by rfl, by rfl, ?_⟩
  intro n h
  exact PyExit.noConfusion h

end SADET
